import Mathlib

/-!
# si_report: the form-submission handler `sendResultsLink`

A shallow embedding of `src/email_trigger/code.js`.  JavaScript strings are
sequences of UTF-16 code units, the two platform services the handler talks
to (`MailApp.sendEmail`, `Logger.log`) are recorded as the list of messages
handed to the mail service and the list of log entries, and an exception is a
value of `Except`.
-/

set_option maxRecDepth 100000

namespace SiReport

/-! ## JavaScript strings and values -/

/-- A JavaScript string is the sequence of its UTF-16 code units. -/
abbrev JSString := List Nat

/-- Every element is a 16-bit code unit. -/
def IsCodeUnits (s : JSString) : Prop := ∀ u ∈ s, u < 65536

instance (s : JSString) : Decidable (IsCodeUnits s) := by
  unfold IsCodeUnits; infer_instance

/-- The UTF-16 code units of one code point (ECMAScript UTF16EncodeCodePoint). -/
def utf16EncodeCodePoint (cp : Nat) : JSString :=
  if cp < 65536 then [cp]
  else [0xD800 + (cp - 65536) / 1024, 0xDC00 + (cp - 65536) % 1024]

/-- The JavaScript string written by a source literal. -/
def lit (s : String) : JSString :=
  (s.toList.map fun c => utf16EncodeCodePoint c.toNat).flatten

/-- The values the handler meets: `undefined` and strings. -/
inductive JSValue where
  | undefined
  | string (s : JSString)
  deriving DecidableEq

/-- ECMAScript ToString, as applied by template literals and by
`encodeURIComponent` to their argument. -/
def JSValue.toStr : JSValue → JSString
  | .undefined => lit "undefined"
  | .string s => s

/-- ECMAScript ToBoolean: `undefined` and the empty string are falsy. -/
def JSValue.truthy : JSValue → Bool
  | .undefined => false
  | .string s => !s.isEmpty

/-- An error object, with the two properties `Error.prototype.toString` reads. -/
structure JSError where
  name : JSString
  message : JSString
  deriving DecidableEq

/-- The string form of an error (`Error.prototype.toString`). -/
def JSError.toString (err : JSError) : JSString :=
  if err.name = [] then err.message
  else if err.message = [] then err.name
  else err.name ++ lit ": " ++ err.message

/-- A `TypeError` raised by reading property `prop` of `undefined`
(the message is the one of the V8 runtime). -/
def typeErrorReading (prop : JSString) : JSError :=
  { name := lit "TypeError",
    message := lit "Cannot read properties of undefined (reading '" ++ prop ++ lit "')" }

/-- The `URIError` raised by `encodeURIComponent` and `decodeURIComponent`
(the message is the one of the V8 runtime). -/
def uriError : JSError :=
  { name := lit "URIError", message := lit "URI malformed" }

/-! ## `encodeURIComponent` -/

/-- The characters `encodeURIComponent` leaves alone:
`A-Z a-z 0-9 - _ . ! ~ * ' ( )`. -/
def isUnreserved (c : Nat) : Bool :=
  (0x41 ≤ c && c ≤ 0x5A) || (0x61 ≤ c && c ≤ 0x7A) || (0x30 ≤ c && c ≤ 0x39) ||
  c == 0x2D || c == 0x5F || c == 0x2E || c == 0x21 || c == 0x7E ||
  c == 0x2A || c == 0x27 || c == 0x28 || c == 0x29

/-- A leading (high) surrogate code unit. -/
def isLeadSurrogate (c : Nat) : Bool := 0xD800 ≤ c && c ≤ 0xDBFF

/-- A trailing (low) surrogate code unit. -/
def isTrailSurrogate (c : Nat) : Bool := 0xDC00 ≤ c && c ≤ 0xDFFF

/-- The code point of a surrogate pair (ECMAScript UTF16SurrogatePairToCodePoint). -/
def surrogatePairToCodePoint (lead trail : Nat) : Nat :=
  (lead - 0xD800) * 0x400 + (trail - 0xDC00) + 0x10000

/-- The UTF-8 octets of a code point. -/
def utf8Encode (cp : Nat) : List Nat :=
  if cp < 0x80 then [cp]
  else if cp < 0x800 then [0xC0 + cp / 64, 0x80 + cp % 64]
  else if cp < 0x10000 then [0xE0 + cp / 4096, 0x80 + cp / 64 % 64, 0x80 + cp % 64]
  else [0xF0 + cp / 262144, 0x80 + cp / 4096 % 64, 0x80 + cp / 64 % 64, 0x80 + cp % 64]

/-- The uppercase hexadecimal digit of a nibble. -/
def hexDigit (d : Nat) : Nat := if d < 10 then 0x30 + d else 0x37 + d

/-- The escape `%XX` of one octet. -/
def percentEscape (octet : Nat) : JSString :=
  [0x25, hexDigit (octet / 16 % 16), hexDigit (octet % 16)]

/-- The escapes of the UTF-8 octets of a code point. -/
def escapeCodePoint (cp : Nat) : JSString :=
  ((utf8Encode cp).map percentEscape).flatten

/-- ECMAScript `encodeURIComponent` (the abstract operation Encode with the
unreserved set above): an unreserved code unit is copied; any other code
unit starts a code point, which is escaped octet by octet; an unpaired
surrogate raises a `URIError`. -/
def encodeURIComponent : JSString → Except JSError JSString
  | [] => .ok []
  | [c] =>
    if isUnreserved c then .ok [c]
    else if isLeadSurrogate c || isTrailSurrogate c then .error uriError
    else .ok (escapeCodePoint c)
  | c :: d :: rest =>
    if isUnreserved c then
      match encodeURIComponent (d :: rest) with
      | .ok r => .ok (c :: r)
      | .error err => .error err
    else if isLeadSurrogate c then
      if isTrailSurrogate d then
        match encodeURIComponent rest with
        | .ok r => .ok (escapeCodePoint (surrogatePairToCodePoint c d) ++ r)
        | .error err => .error err
      else .error uriError
    else if isTrailSurrogate c then .error uriError
    else
      match encodeURIComponent (d :: rest) with
      | .ok r => .ok (escapeCodePoint c ++ r)
      | .error err => .error err

/-- The test `String.prototype.isWellFormed`: no unpaired surrogate. -/
def isWellFormed : JSString → Bool
  | [] => true
  | [c] => !(isLeadSurrogate c || isTrailSurrogate c)
  | c :: d :: rest =>
    if isLeadSurrogate c then isTrailSurrogate d && isWellFormed rest
    else !isTrailSurrogate c && isWellFormed (d :: rest)

/-- The code points of a string (ECMAScript StringToCodePoints): a surrogate
pair is one code point, any other code unit is a code point by itself. -/
def stringToCodePoints : JSString → List Nat
  | [] => []
  | [c] => [c]
  | c :: d :: rest =>
    if isLeadSurrogate c && isTrailSurrogate d then
      surrogatePairToCodePoint c d :: stringToCodePoints rest
    else c :: stringToCodePoints (d :: rest)

/-- The encoding as the documentation words it: every character outside the
unreserved set is replaced by the escapes of its UTF-8 octets, every
unreserved character is kept. -/
def encodeByCharacter (s : JSString) : JSString :=
  ((stringToCodePoints s).map fun cp =>
    if isUnreserved cp then [cp] else escapeCodePoint cp).flatten

/-! ## `decodeURIComponent` -/

/-- The value of a hexadecimal digit, of either case. -/
def hexValue (c : Nat) : Option Nat :=
  if 0x30 ≤ c ∧ c ≤ 0x39 then some (c - 0x30)
  else if 0x41 ≤ c ∧ c ≤ 0x46 then some (c - 0x37)
  else if 0x61 ≤ c ∧ c ≤ 0x66 then some (c - 0x57)
  else none

/-- The octet written by two hexadecimal digits (ECMAScript ParseHexOctet). -/
def parseHexOctet (h l : Nat) : Option Nat :=
  match hexValue h, hexValue l with
  | some a, some b => some (16 * a + b)
  | _, _ => none

/-- The number of leading 1 bits of an octet. -/
def leadingOnes (octet : Nat) : Nat :=
  if octet < 0x80 then 0
  else if octet < 0xC0 then 1
  else if octet < 0xE0 then 2
  else if octet < 0xF0 then 3
  else if octet < 0xF8 then 4
  else 5

/-- Reads `n` further escapes `%XX` from the front of the input. -/
def readEscapes : Nat → JSString → Option (List Nat × JSString)
  | 0, s => some ([], s)
  | n + 1, 0x25 :: h :: l :: rest =>
    match parseHexOctet h l with
    | some b =>
      match readEscapes n rest with
      | some (bs, r) => some (b :: bs, r)
      | none => none
    | none => none
  | _ + 1, _ => none

/-- A continuation octet `10xxxxxx`. -/
def isContinuation (octet : Nat) : Bool := 0x80 ≤ octet && octet < 0xC0

/-- The code point of a multi-octet UTF-8 sequence, when the sequence is
valid: continuation octets, shortest form, no surrogate, at most 0x10FFFF. -/
def utf8Decode : List Nat → Option Nat
  | [b0, b1] =>
    let v := b0 % 32 * 64 + b1 % 64
    if isContinuation b1 && decide (0x80 ≤ v) then some v else none
  | [b0, b1, b2] =>
    let v := b0 % 16 * 4096 + b1 % 64 * 64 + b2 % 64
    if isContinuation b1 && isContinuation b2 && decide (0x800 ≤ v) &&
        !(isLeadSurrogate v || isTrailSurrogate v) then some v else none
  | [b0, b1, b2, b3] =>
    let v := b0 % 8 * 262144 + b1 % 64 * 4096 + b2 % 64 * 64 + b3 % 64
    if isContinuation b1 && isContinuation b2 && isContinuation b3 &&
        decide (0x10000 ≤ v) && decide (v ≤ 0x10FFFF) then some v else none
  | _ => none

/-- The loop of the abstract operation Decode, with a bound on the number of
iterations; `none` when the bound is reached before the end of the input. -/
def decodeLoop : Nat → JSString → Option (Except JSError JSString)
  | _, [] => some (.ok [])
  | 0, _ :: _ => none
  | fuel + 1, c :: rest =>
    if c = 0x25 then
      match rest with
      | h :: l :: rest2 =>
        match parseHexOctet h l with
        | none => some (.error uriError)
        | some b =>
          let n := leadingOnes b
          if n = 0 then
            match decodeLoop fuel rest2 with
            | some (.ok r) => some (.ok (b :: r))
            | other => other
          else if n = 1 ∨ 4 < n then some (.error uriError)
          else
            match readEscapes (n - 1) rest2 with
            | none => some (.error uriError)
            | some (bs, rest3) =>
              match utf8Decode (b :: bs) with
              | none => some (.error uriError)
              | some v =>
                match decodeLoop fuel rest3 with
                | some (.ok r) => some (.ok (utf16EncodeCodePoint v ++ r))
                | other => other
      | _ => some (.error uriError)
    else
      match decodeLoop fuel rest with
      | some (.ok r) => some (.ok (c :: r))
      | other => other

/-- ECMAScript `decodeURIComponent`: every iteration of the loop consumes at
least one code unit, so the length of the input bounds the iterations. -/
def decodeURIComponent (s : JSString) : Option (Except JSError JSString) :=
  decodeLoop s.length s

/-! ## The event and the platform services -/

/-- The form-submission event: `namedValues`, when present, maps a question
title to the list of the values submitted for it. -/
structure Event where
  namedValues : Option (List (JSString × List JSString))

/-- Property read `obj[key]` on the `namedValues` object: `none` is `undefined`. -/
def getProp (obj : List (JSString × List JSString)) (key : JSString) :
    Option (List JSString) :=
  obj.lookup key

/-- Array read `arr[0]`: `undefined` on an empty array. -/
def index0 : List JSString → JSValue
  | [] => .undefined
  | v :: _ => .string v

/-- The argument object of `MailApp.sendEmail`. -/
structure MailMessage where
  «to» : JSValue
  subject : JSString
  htmlBody : JSString
  deriving DecidableEq

/-- The mail service: it returns, or it raises an error. -/
abbrev MailApp := MailMessage → Except JSError Unit

/-- What one run of the handler did: the calls of `MailApp.sendEmail`, the
entries written with `Logger.log`, and how the run completed. -/
structure Outcome where
  sent : List MailMessage
  log : List JSString
  completion : Except JSError Unit

/-! ## The handler -/

/-- The constant `STREAMLIT_APP_URL`. -/
def STREAMLIT_APP_URL : JSString := lit "https://woynhpxcdqkfmf5khvnjvv.streamlit.app"

/-- The variable `name`: the first value of `Name` when the entry exists, else `''`. -/
def nameOf (nv : List (JSString × List JSString)) : JSValue :=
  match getProp nv (lit "Name") with
  | some vals => index0 vals
  | none => .string (lit "")

/-- The variable `greeting`. -/
def greetingOf (name : JSValue) : JSString :=
  if name.truthy then lit "Hi " ++ name.toStr ++ lit "," else lit "Hi,"

/-- The variable `resultsUrl`. -/
def resultsUrlOf (encodedEmail : JSString) : JSString :=
  STREAMLIT_APP_URL ++ lit "/?email=" ++ encodedEmail

/-- The variable `subject`. -/
def subject : JSString := lit "Your Strategic Impact Profile is Ready"

/-- The variable `body`: the template literal with its two holes. -/
def bodyOf (greeting resultsUrl : JSString) : JSString :=
  lit "\n      <p>" ++ greeting ++
  lit "</p>\n      <p>Thank you for completing the Strategic Impact Self-Assessment.</p>\n      <p>You can view your personalized dashboard by clicking the link below:</p>\n      <p><a href=\"" ++
  resultsUrl ++
  lit "\" style=\"font-size: 16px; font-weight: bold; color: #FFFFFF; background-color: #0068C9; text-decoration: none; padding: 10px 20px; border-radius: 5px;\">View My Profile</a></p>\n      <p>This link is personalized for you. Please do not share it.</p>\n    "

/-- The body of the `try` block. -/
def tryBlock (mailApp : MailApp) (e : Event) : Outcome :=
  match e.namedValues with
  | none =>
    { sent := [], log := [], completion := .error (typeErrorReading (lit "Work Email Address")) }
  | some nv =>
    match getProp nv (lit "Work Email Address") with
    | none => { sent := [], log := [], completion := .error (typeErrorReading (lit "0")) }
    | some vals =>
      let email := index0 vals
      let name := nameOf nv
      let greeting := greetingOf name
      match encodeURIComponent email.toStr with
      | .error err => { sent := [], log := [], completion := .error err }
      | .ok encodedEmail =>
        let resultsUrl := resultsUrlOf encodedEmail
        let body := bodyOf greeting resultsUrl
        let msg : MailMessage := { «to» := email, subject := subject, htmlBody := body }
        match mailApp msg with
        | .error err => { sent := [msg], log := [], completion := .error err }
        | .ok _ =>
          { sent := [msg],
            log := [lit "Successfully sent results link to " ++ email.toStr],
            completion := .ok () }

/-- The handler `sendResultsLink(e)`: the `try` block, and the `catch` clause
that logs the error and lets the handler return. -/
def sendResultsLink (mailApp : MailApp) (e : Event) : Outcome :=
  let r := tryBlock mailApp e
  match r.completion with
  | .ok _ => r
  | .error err =>
    { sent := r.sent,
      log := r.log ++ [lit "Error sending email: " ++ err.toString],
      completion := .ok () }

/-! ## Auxiliary definitions for the statements -/

/-- The characters an encoded component is made of. -/
def isEncodedChar (c : Nat) : Bool := isUnreserved c || c == 0x25

/-- What the loop of Decode does with the result of the rest of the input
once it has read the code units `out`. -/
def decodeThen (out : JSString) : Option (Except JSError JSString) →
    Option (Except JSError JSString)
  | some (.ok r) => some (.ok (out ++ r))
  | other => other

/-- The key of the email entry. -/
def emailKey : JSString := lit "Work Email Address"

/-- The message the handler builds from the entries and the encoded email. -/
def messageOf (nv : List (JSString × List JSString)) (vals : List JSString)
    (encodedEmail : JSString) : MailMessage :=
  { «to» := index0 vals, subject := subject,
    htmlBody := bodyOf (greetingOf (nameOf nv)) (resultsUrlOf encodedEmail) }

/-- The entry the `catch` clause writes. -/
def errorEntry (err : JSError) : JSString := lit "Error sending email: " ++ err.toString

/-- The entry written after a send that returned. -/
def successEntry (email : JSValue) : JSString :=
  lit "Successfully sent results link to " ++ email.toStr

/-! ## The shape of the body -/

/-- The body up to the `href` attribute of the link. -/
def bodyBeforeHref (greeting : JSString) : JSString :=
  lit "\n      <p>" ++ greeting ++
  lit "</p>\n      <p>Thank you for completing the Strategic Impact Self-Assessment.</p>\n      <p>You can view your personalized dashboard by clicking the link below:</p>\n      <p><a "

/-- The body after the closing quote of the `href` attribute. -/
def bodyAfterHref : JSString :=
  lit " style=\"font-size: 16px; font-weight: bold; color: #FFFFFF; background-color: #0068C9; text-decoration: none; padding: 10px 20px; border-radius: 5px;\">View My Profile</a></p>\n      <p>This link is personalized for you. Please do not share it.</p>\n    "

/-- The body after its first paragraph. -/
def bodyAfterGreeting (resultsUrl : JSString) : JSString :=
  lit "\n      <p>Thank you for completing the Strategic Impact Self-Assessment.</p>\n      <p>You can view your personalized dashboard by clicking the link below:</p>\n      <p><a href=\"" ++
  resultsUrl ++
  lit "\" style=\"font-size: 16px; font-weight: bold; color: #FFFFFF; background-color: #0068C9; text-decoration: none; padding: 10px 20px; border-radius: 5px;\">View My Profile</a></p>\n      <p>This link is personalized for you. Please do not share it.</p>\n    "

/-! ## Sample inputs -/

/-- A mail service that accepts every message. -/
def deliveringMail : MailApp := fun _ => .ok ()

/-- The error a failing mail service raises in the samples. -/
def quotaError : JSError :=
  { name := lit "Exception", message := lit "Service invoked too many times for one day: email." }

/-- A mail service that rejects every message. -/
def failingMail : MailApp := fun _ => .error quotaError

/-- The error the mail service raises for a message without recipient. -/
def noRecipientError : JSError :=
  { name := lit "Exception", message := lit "Failed to send email: no recipient" }

/-- A mail service that rejects a message whose recipient is undefined or
empty, and accepts every other message. -/
def strictMail : MailApp := fun m =>
  match m.«to» with
  | .undefined => .error noRecipientError
  | .string [] => .error noRecipientError
  | .string (_ :: _) => .ok ()

/-- The entries of a submission with an email and a name. -/
def sampleValues : List (JSString × List JSString) :=
  [(lit "Timestamp", [lit "1/2/2025 10:00:00"]),
   (lit "Work Email Address", [lit "ann+si@example.com"]),
   (lit "Name", [lit "Ann"])]

/-- A submission with an email and a name. -/
def sampleEvent : Event := { namedValues := some sampleValues }

/-- The entries of a submission of a form without the email question. -/
def valuesWithoutEmail : List (JSString × List JSString) :=
  [(lit "Timestamp", [lit "1/2/2025 10:00:00"]), (lit "Name", [lit "Ann"])]

/-- An event whose email entry has an empty list of values. -/
def emptyEmailEvent : Event := { namedValues := some [(lit "Work Email Address", [])] }

/-- An event whose email starts with an unpaired surrogate. -/
def surrogateEvent : Event :=
  { namedValues := some [(lit "Work Email Address", [0xD83D :: lit "@example.com"])] }

/-! ## Facts about `encodeURIComponent` -/

theorem not_surrogate_of_unreserved {c : Nat} (h : isUnreserved c = true) :
    isLeadSurrogate c = false ∧ isTrailSurrogate c = false := by
  simp only [isUnreserved, isLeadSurrogate, isTrailSurrogate, Bool.or_eq_true, Bool.and_eq_true,
    decide_eq_true_eq, beq_iff_eq, Bool.and_eq_false_iff, decide_eq_false_iff_not] at h ⊢
  omega

theorem pair_not_unreserved (c d : Nat) :
    isUnreserved (surrogatePairToCodePoint c d) = false := by
  simp only [isUnreserved, surrogatePairToCodePoint, Bool.or_eq_false_iff, Bool.and_eq_false_iff,
    decide_eq_false_iff_not, beq_eq_false_iff_ne]
  omega

/-- Induction on a list two elements at a time. -/
theorem list_induction_two {α : Type} {P : List α → Prop} (h0 : P [])
    (h1 : ∀ c, P [c]) (h2 : ∀ c d rest, P rest → P (d :: rest) → P (c :: d :: rest)) :
    ∀ s, P s := by
  have key : ∀ n, ∀ s : List α, s.length ≤ n → P s := by
    intro n
    induction n with
    | zero =>
      intro s hs
      match s, hs with
      | [], _ => exact h0
    | succ n ih =>
      intro s hs
      match s, hs with
      | [], _ => exact h0
      | [c], _ => exact h1 c
      | c :: d :: rest, hs =>
        simp only [List.length_cons] at hs
        exact h2 c d rest (ih rest (by omega)) (ih (d :: rest) (by simp only [List.length_cons]; omega))
  exact fun s => key s.length s (Nat.le_refl _)

theorem encodeByCharacter_cons_pair (c d : Nat) (rest : JSString)
    (hc : isLeadSurrogate c = true) (hd : isTrailSurrogate d = true) :
    encodeByCharacter (c :: d :: rest) =
      escapeCodePoint (surrogatePairToCodePoint c d) ++ encodeByCharacter rest := by
  simp [encodeByCharacter, stringToCodePoints, hc, hd, pair_not_unreserved]

theorem encodeByCharacter_cons_single (c d : Nat) (rest : JSString)
    (h : (isLeadSurrogate c && isTrailSurrogate d) = false) :
    encodeByCharacter (c :: d :: rest) =
      (if isUnreserved c then [c] else escapeCodePoint c) ++ encodeByCharacter (d :: rest) := by
  simp [encodeByCharacter, stringToCodePoints, h]

/-- The loop of `encodeURIComponent` computes the character-wise encoding on a
well-formed string and raises `URIError` on any other. -/
theorem encodeURIComponent_eq (s : JSString) :
    encodeURIComponent s =
      if isWellFormed s then .ok (encodeByCharacter s) else .error uriError := by
  induction s using list_induction_two with
  | h0 => rfl
  | h1 c =>
    by_cases hu : isUnreserved c = true
    · simp [encodeURIComponent, isWellFormed, encodeByCharacter, stringToCodePoints, hu,
        not_surrogate_of_unreserved hu]
    · by_cases hs : (isLeadSurrogate c || isTrailSurrogate c) = true
      · simp [encodeURIComponent, isWellFormed, hu, hs]
      · simp [encodeURIComponent, isWellFormed, encodeByCharacter, stringToCodePoints, hu, hs]
  | h2 c d rest ih1 ih2 =>
    rw [encodeURIComponent, ih1, ih2, isWellFormed]
    by_cases hu : isUnreserved c = true
    · have hn := not_surrogate_of_unreserved hu
      rw [encodeByCharacter_cons_single c d rest (by simp [hn.1])]
      cases hw : isWellFormed (d :: rest) <;> simp [hu, hn.1, hn.2, hw]
    · by_cases hl : isLeadSurrogate c = true
      · by_cases ht : isTrailSurrogate d = true
        · rw [encodeByCharacter_cons_pair c d rest hl ht]
          cases hw : isWellFormed rest <;> simp [hu, hl, ht, hw]
        · simp [hu, hl, ht]
      · rw [encodeByCharacter_cons_single c d rest (by simp [hl])]
        by_cases ht : isTrailSurrogate c = true
        · simp [hu, hl, ht]
        · cases hw : isWellFormed (d :: rest) <;> simp [hu, hl, ht, hw]

theorem hexDigit_unreserved {d : Nat} (h : d < 16) : isUnreserved (hexDigit d) = true := by
  interval_cases d <;> rfl

theorem percentEscape_chars (b : Nat) : ∀ c ∈ percentEscape b, isEncodedChar c = true := by
  intro c hc
  simp only [percentEscape, List.mem_cons, List.mem_singleton, List.not_mem_nil, or_false] at hc
  rcases hc with rfl | rfl | rfl
  · rfl
  · simp [isEncodedChar, hexDigit_unreserved (Nat.mod_lt _ (by decide : 0 < 16))]
  · simp [isEncodedChar, hexDigit_unreserved (Nat.mod_lt _ (by decide : 0 < 16))]

theorem escapeCodePoint_chars (cp : Nat) : ∀ c ∈ escapeCodePoint cp, isEncodedChar c = true := by
  intro c hc
  simp only [escapeCodePoint, List.mem_flatten, List.mem_map] at hc
  obtain ⟨l, ⟨b, _, rfl⟩, hcl⟩ := hc
  exact percentEscape_chars b c hcl

theorem encodeByCharacter_chars (s : JSString) :
    ∀ c ∈ encodeByCharacter s, isEncodedChar c = true := by
  intro c hc
  simp only [encodeByCharacter, List.mem_flatten, List.mem_map] at hc
  obtain ⟨l, ⟨cp, _, rfl⟩, hcl⟩ := hc
  split at hcl
  · rename_i hu
    simp only [List.mem_singleton] at hcl
    subst hcl
    simp [isEncodedChar, hu]
  · exact escapeCodePoint_chars cp c hcl

theorem encodeURIComponent_ok {s r : JSString} (h : encodeURIComponent s = .ok r) :
    isWellFormed s = true ∧ r = encodeByCharacter s := by
  rw [encodeURIComponent_eq] at h
  split at h
  · rename_i hw
    exact ⟨hw, by injection h with h; exact h.symm⟩
  · cases h

theorem encodeURIComponent_chars {s r : JSString} (h : encodeURIComponent s = .ok r) :
    ∀ c ∈ r, isEncodedChar c = true := by
  rw [(encodeURIComponent_ok h).2]
  exact encodeByCharacter_chars s

/-! ## Decoding what was encoded -/

theorem hexValue_hexDigit {d : Nat} (h : d < 16) : hexValue (hexDigit d) = some d := by
  interval_cases d <;> rfl

theorem parseHexOctet_escape {b : Nat} (h : b < 256) :
    parseHexOctet (hexDigit (b / 16 % 16)) (hexDigit (b % 16)) = some b := by
  rw [parseHexOctet, hexValue_hexDigit (Nat.mod_lt _ (by decide)),
    hexValue_hexDigit (Nat.mod_lt _ (by decide))]
  simp only [Option.some.injEq]
  omega

theorem readEscapes_one {b : Nat} (h : b < 256) (rest : JSString) :
    readEscapes 1 (percentEscape b ++ rest) = some ([b], rest) := by
  simp [readEscapes, percentEscape, parseHexOctet_escape h]

theorem readEscapes_two {b c : Nat} (hb : b < 256) (hc : c < 256) (rest : JSString) :
    readEscapes 2 (percentEscape b ++ (percentEscape c ++ rest)) = some ([b, c], rest) := by
  simp [readEscapes, percentEscape, parseHexOctet_escape hb, parseHexOctet_escape hc]

theorem readEscapes_three {b c d : Nat} (hb : b < 256) (hc : c < 256) (hd : d < 256)
    (rest : JSString) :
    readEscapes 3 (percentEscape b ++ (percentEscape c ++ (percentEscape d ++ rest))) =
      some ([b, c, d], rest) := by
  simp [readEscapes, percentEscape, parseHexOctet_escape hb, parseHexOctet_escape hc,
    parseHexOctet_escape hd]

theorem decodeLoop_plain (fuel c : Nat) (rest : JSString) (hc : c ≠ 0x25) :
    decodeLoop (fuel + 1) (c :: rest) = decodeThen [c] (decodeLoop fuel rest) := by
  rw [decodeLoop.eq_def]
  simp only [hc, if_false]
  cases decodeLoop fuel rest with
  | none => rfl
  | some x => cases x <;> rfl

theorem decodeLoop_escape1 (fuel cp : Nat) (rest : JSString) (h : cp < 0x80) :
    decodeLoop (fuel + 1) (escapeCodePoint cp ++ rest) =
      decodeThen (utf16EncodeCodePoint cp) (decodeLoop fuel rest) := by
  have hb : cp < 256 := by omega
  have hu : utf16EncodeCodePoint cp = [cp] := by simp [utf16EncodeCodePoint]; omega
  simp only [escapeCodePoint, utf8Encode, h, if_true, List.map_cons, List.map_nil,
    List.flatten_cons, List.flatten_nil, List.append_nil, percentEscape, List.cons_append,
    List.nil_append, hu]
  rw [decodeLoop]
  simp only [if_true, parseHexOctet_escape hb, leadingOnes, h]
  cases decodeLoop fuel rest with
  | none => rfl
  | some x => cases x <;> rfl

theorem decodeLoop_multi (fuel b0 v : Nat) (bs : List Nat) (rest rest2 : JSString)
    (hb0 : b0 < 256) (hn : 2 ≤ leadingOnes b0 ∧ leadingOnes b0 ≤ 4)
    (hr : readEscapes (leadingOnes b0 - 1) rest = some (bs, rest2))
    (hv : utf8Decode (b0 :: bs) = some v) :
    decodeLoop (fuel + 1) (percentEscape b0 ++ rest) =
      decodeThen (utf16EncodeCodePoint v) (decodeLoop fuel rest2) := by
  simp only [percentEscape, List.cons_append, List.nil_append]
  rw [decodeLoop]
  have h0 : ¬ leadingOnes b0 = 0 := by omega
  have h1 : ¬ (leadingOnes b0 = 1 ∨ 4 < leadingOnes b0) := by omega
  simp only [if_true, parseHexOctet_escape hb0, h0, h1, if_false, hr, hv]
  cases decodeLoop fuel rest2 with
  | none => rfl
  | some x => cases x <;> rfl

theorem decodeLoop_escape2 (fuel cp : Nat) (rest : JSString) (h1 : 0x80 ≤ cp) (h2 : cp < 0x800) :
    decodeLoop (fuel + 1) (escapeCodePoint cp ++ rest) =
      decodeThen (utf16EncodeCodePoint cp) (decodeLoop fuel rest) := by
  have e : escapeCodePoint cp ++ rest =
      percentEscape (0xC0 + cp / 64) ++ (percentEscape (0x80 + cp % 64) ++ rest) := by
    have : ¬ cp < 0x80 := by omega
    simp [escapeCodePoint, utf8Encode, this, h2]
  have hl : leadingOnes (0xC0 + cp / 64) = 2 := by
    simp only [leadingOnes]; split_ifs <;> omega
  rw [e]
  apply decodeLoop_multi fuel _ cp [0x80 + cp % 64] _ rest (by omega) (by omega)
  · rw [hl]; exact readEscapes_one (by omega) rest
  · simp only [utf8Decode, isContinuation, Bool.and_eq_true, decide_eq_true_eq]
    rw [if_pos (by omega)]
    simp only [Option.some.injEq]
    omega

theorem decodeLoop_escape3 (fuel cp : Nat) (rest : JSString) (h1 : 0x800 ≤ cp)
    (h2 : cp < 0x10000) (h3 : isLeadSurrogate cp = false) (h4 : isTrailSurrogate cp = false) :
    decodeLoop (fuel + 1) (escapeCodePoint cp ++ rest) =
      decodeThen (utf16EncodeCodePoint cp) (decodeLoop fuel rest) := by
  have e : escapeCodePoint cp ++ rest =
      percentEscape (0xE0 + cp / 4096) ++ (percentEscape (0x80 + cp / 64 % 64) ++
        (percentEscape (0x80 + cp % 64) ++ rest)) := by
    have : ¬ cp < 0x80 := by omega
    have : ¬ cp < 0x800 := by omega
    simp [escapeCodePoint, utf8Encode, *]
  have hl : leadingOnes (0xE0 + cp / 4096) = 3 := by
    simp only [leadingOnes]; split_ifs <;> omega
  have hv : (0xE0 + cp / 4096) % 16 * 4096 + (0x80 + cp / 64 % 64) % 64 * 64 +
      (0x80 + cp % 64) % 64 = cp := by omega
  rw [e]
  apply decodeLoop_multi fuel _ cp [0x80 + cp / 64 % 64, 0x80 + cp % 64] _ rest
    (by omega) (by omega)
  · rw [hl]; exact readEscapes_two (by omega) (by omega) rest
  · simp only [utf8Decode, hv, h3, h4, isContinuation, Bool.and_eq_true, decide_eq_true_eq,
      Bool.or_false, Bool.not_false, and_true]
    rw [if_pos (by omega)]

theorem decodeLoop_escape4 (fuel cp : Nat) (rest : JSString) (h1 : 0x10000 ≤ cp)
    (h2 : cp < 0x110000) :
    decodeLoop (fuel + 1) (escapeCodePoint cp ++ rest) =
      decodeThen (utf16EncodeCodePoint cp) (decodeLoop fuel rest) := by
  have e : escapeCodePoint cp ++ rest =
      percentEscape (0xF0 + cp / 262144) ++ (percentEscape (0x80 + cp / 4096 % 64) ++
        (percentEscape (0x80 + cp / 64 % 64) ++ (percentEscape (0x80 + cp % 64) ++ rest))) := by
    have : ¬ cp < 0x80 := by omega
    have : ¬ cp < 0x800 := by omega
    have : ¬ cp < 0x10000 := by omega
    simp [escapeCodePoint, utf8Encode, *]
  have hl : leadingOnes (0xF0 + cp / 262144) = 4 := by
    simp only [leadingOnes]; split_ifs <;> omega
  have hv : (0xF0 + cp / 262144) % 8 * 262144 + (0x80 + cp / 4096 % 64) % 64 * 4096 +
      (0x80 + cp / 64 % 64) % 64 * 64 + (0x80 + cp % 64) % 64 = cp := by omega
  rw [e]
  apply decodeLoop_multi fuel _ cp [0x80 + cp / 4096 % 64, 0x80 + cp / 64 % 64, 0x80 + cp % 64]
    _ rest (by omega) (by omega)
  · rw [hl]; exact readEscapes_three (by omega) (by omega) (by omega) rest
  · simp only [utf8Decode, hv, isContinuation, Bool.and_eq_true, decide_eq_true_eq]
    rw [if_pos (by omega)]

/-- Decoding the escapes of a code point gives back its UTF-16 code units. -/
theorem decodeLoop_escape (fuel cp : Nat) (rest : JSString) (h : cp < 0x110000)
    (h3 : isLeadSurrogate cp = false) (h4 : isTrailSurrogate cp = false) :
    decodeLoop (fuel + 1) (escapeCodePoint cp ++ rest) =
      decodeThen (utf16EncodeCodePoint cp) (decodeLoop fuel rest) := by
  by_cases a : cp < 0x80
  · exact decodeLoop_escape1 fuel cp rest a
  · by_cases b : cp < 0x800
    · exact decodeLoop_escape2 fuel cp rest (by omega) b
    · by_cases c : cp < 0x10000
      · exact decodeLoop_escape3 fuel cp rest (by omega) c h3 h4
      · exact decodeLoop_escape4 fuel cp rest (by omega) h

theorem escapeCodePoint_length_pos (cp : Nat) : 0 < (escapeCodePoint cp).length := by
  simp only [escapeCodePoint, utf8Encode]
  split_ifs <;> simp [percentEscape]

theorem unreserved_ne_percent {c : Nat} (h : isUnreserved c = true) : c ≠ 0x25 := by
  rintro rfl
  exact absurd h (by decide)

/-- One iteration of Decode on the encoding of a code unit that is not a surrogate. -/
theorem decodeLoop_single (fuel c : Nat) (rest tail : JSString) (hc : c < 65536)
    (h3 : isLeadSurrogate c = false) (h4 : isTrailSurrogate c = false)
    (hfuel : ((if isUnreserved c then [c] else escapeCodePoint c) ++ rest).length ≤ fuel)
    (ih : ∀ f, rest.length ≤ f → decodeLoop f rest = some (.ok tail)) :
    decodeLoop fuel ((if isUnreserved c then [c] else escapeCodePoint c) ++ rest) =
      some (.ok (c :: tail)) := by
  have hu : utf16EncodeCodePoint c = [c] := by simp [utf16EncodeCodePoint, hc]
  by_cases h : isUnreserved c = true
  · simp only [h, if_true, List.length_append, List.length_singleton] at hfuel ⊢
    obtain ⟨f, rfl⟩ : ∃ f, fuel = f + 1 := ⟨fuel - 1, by omega⟩
    rw [List.singleton_append, decodeLoop_plain f c rest (unreserved_ne_percent h),
      ih f (by omega)]
    rfl
  · simp only [Bool.not_eq_true] at h
    simp only [h, Bool.false_eq_true, if_false, List.length_append] at hfuel ⊢
    have := escapeCodePoint_length_pos c
    obtain ⟨f, rfl⟩ : ∃ f, fuel = f + 1 := ⟨fuel - 1, by omega⟩
    rw [decodeLoop_escape f c rest (by omega) h3 h4, ih f (by omega), hu]
    rfl

/-- One iteration of Decode on the encoding of a surrogate pair. -/
theorem decodeLoop_pair (fuel c d : Nat) (rest tail : JSString)
    (hc : isLeadSurrogate c = true) (hd : isTrailSurrogate d = true)
    (hfuel : (escapeCodePoint (surrogatePairToCodePoint c d) ++ rest).length ≤ fuel)
    (ih : ∀ f, rest.length ≤ f → decodeLoop f rest = some (.ok tail)) :
    decodeLoop fuel (escapeCodePoint (surrogatePairToCodePoint c d) ++ rest) =
      some (.ok (c :: d :: tail)) := by
  simp only [isLeadSurrogate, isTrailSurrogate, Bool.and_eq_true, decide_eq_true_eq] at hc hd
  have hrange : 0x10000 ≤ surrogatePairToCodePoint c d ∧
      surrogatePairToCodePoint c d < 0x110000 := by
    simp only [surrogatePairToCodePoint]; omega
  have hu : utf16EncodeCodePoint (surrogatePairToCodePoint c d) = [c, d] := by
    have : ¬ surrogatePairToCodePoint c d < 65536 := by omega
    simp only [utf16EncodeCodePoint, this, if_false]
    simp only [surrogatePairToCodePoint, List.cons.injEq, and_true]
    omega
  have := escapeCodePoint_length_pos (surrogatePairToCodePoint c d)
  simp only [List.length_append] at hfuel
  obtain ⟨f, rfl⟩ : ∃ f, fuel = f + 1 := ⟨fuel - 1, by omega⟩
  rw [decodeLoop_escape4 f _ rest hrange.1 hrange.2, ih f (by omega), hu]
  rfl

theorem encodeByCharacter_single (c : Nat) :
    encodeByCharacter [c] = (if isUnreserved c then [c] else escapeCodePoint c) ++ [] := by
  simp [encodeByCharacter, stringToCodePoints]

/-- Decoding the encoding of a well-formed string gives the string back,
whatever the bound on the iterations from the length of the input on. -/
theorem decodeLoop_encodeByCharacter (s : JSString) :
    IsCodeUnits s → isWellFormed s = true →
      ∀ fuel, (encodeByCharacter s).length ≤ fuel →
        decodeLoop fuel (encodeByCharacter s) = some (.ok s) := by
  induction s using list_induction_two with
  | h0 =>
    intro _ _ fuel _
    cases fuel <;> rfl
  | h1 c =>
    intro hcu hwf fuel hfuel
    have hc : c < 65536 := hcu c (by simp)
    simp only [isWellFormed, Bool.not_eq_true', Bool.or_eq_false_iff] at hwf
    rw [encodeByCharacter_single] at hfuel ⊢
    exact decodeLoop_single fuel c [] [] hc hwf.1 hwf.2 hfuel
      (fun f _ => by cases f <;> rfl)
  | h2 c d rest ih1 ih2 =>
    intro hcu hwf fuel hfuel
    have hc : c < 65536 := hcu c (by simp)
    have hcu2 : IsCodeUnits (d :: rest) := fun u hu => hcu u (by simp at hu ⊢; tauto)
    have hcu1 : IsCodeUnits rest := fun u hu => hcu u (by simp; tauto)
    rw [isWellFormed] at hwf
    by_cases hl : isLeadSurrogate c = true
    · simp only [hl, if_true, Bool.and_eq_true] at hwf
      rw [encodeByCharacter_cons_pair c d rest hl hwf.1] at hfuel ⊢
      exact decodeLoop_pair fuel c d _ rest hl hwf.1 hfuel (ih1 hcu1 hwf.2)
    · simp only [Bool.not_eq_true] at hl
      simp only [hl, Bool.false_eq_true, if_false, Bool.and_eq_true, Bool.not_eq_true'] at hwf
      rw [encodeByCharacter_cons_single c d rest (by simp [hl])] at hfuel ⊢
      exact decodeLoop_single fuel c _ _ hc hl hwf.1 hfuel (ih2 hcu2 hwf.2)

/-- Decoding undoes encoding on every well-formed string. -/
theorem decodeURIComponent_encodeURIComponent {s r : JSString} (hcu : IsCodeUnits s)
    (h : encodeURIComponent s = .ok r) : decodeURIComponent r = some (.ok s) := by
  obtain ⟨hw, rfl⟩ := encodeURIComponent_ok h
  exact decodeLoop_encodeByCharacter s hcu hw _ (Nat.le_refl _)

/-! ## The runs of the handler -/

theorem run_no_namedValues (mailApp : MailApp) (e : Event) (h : e.namedValues = none) :
    sendResultsLink mailApp e =
      ⟨[], [errorEntry (typeErrorReading (lit "Work Email Address"))], .ok ()⟩ := by
  simp only [sendResultsLink, tryBlock, h]
  rfl

theorem run_no_entry (mailApp : MailApp) (e : Event) (nv : List (JSString × List JSString))
    (h : e.namedValues = some nv) (h2 : getProp nv emailKey = none) :
    sendResultsLink mailApp e = ⟨[], [errorEntry (typeErrorReading (lit "0"))], .ok ()⟩ := by
  simp only [emailKey] at h2
  simp only [sendResultsLink, tryBlock, h, h2]
  rfl

theorem run_encode_error (mailApp : MailApp) (e : Event) (nv : List (JSString × List JSString))
    (vals : List JSString) (err : JSError)
    (h : e.namedValues = some nv) (h2 : getProp nv emailKey = some vals)
    (h3 : encodeURIComponent (index0 vals).toStr = .error err) :
    sendResultsLink mailApp e = ⟨[], [errorEntry err], .ok ()⟩ := by
  simp only [emailKey] at h2
  simp only [sendResultsLink, tryBlock, h, h2, h3]
  rfl

theorem run_mail_error (mailApp : MailApp) (e : Event) (nv : List (JSString × List JSString))
    (vals : List JSString) (enc : JSString) (err : JSError)
    (h : e.namedValues = some nv) (h2 : getProp nv emailKey = some vals)
    (h3 : encodeURIComponent (index0 vals).toStr = .ok enc)
    (h4 : mailApp (messageOf nv vals enc) = .error err) :
    sendResultsLink mailApp e = ⟨[messageOf nv vals enc], [errorEntry err], .ok ()⟩ := by
  simp only [emailKey] at h2
  simp only [messageOf] at h4
  simp only [sendResultsLink, tryBlock, h, h2, h3, h4]
  rfl

theorem run_mail_ok (mailApp : MailApp) (e : Event) (nv : List (JSString × List JSString))
    (vals : List JSString) (enc : JSString)
    (h : e.namedValues = some nv) (h2 : getProp nv emailKey = some vals)
    (h3 : encodeURIComponent (index0 vals).toStr = .ok enc)
    (h4 : mailApp (messageOf nv vals enc) = .ok ()) :
    sendResultsLink mailApp e =
      ⟨[messageOf nv vals enc], [successEntry (index0 vals)], .ok ()⟩ := by
  simp only [emailKey] at h2
  simp only [messageOf] at h4
  simp only [sendResultsLink, tryBlock, h, h2, h3, h4]
  rfl

/-- Every run of the handler is one of four: nothing to encode, an email that
cannot be encoded, a send that raised, a send that returned. -/
theorem run_cases (mailApp : MailApp) (e : Event) :
    (∃ err, sendResultsLink mailApp e = ⟨[], [errorEntry err], .ok ()⟩ ∧
      (e.namedValues = none ∨
        (∃ nv, e.namedValues = some nv ∧ getProp nv emailKey = none) ∨
        (∃ nv vals, e.namedValues = some nv ∧ getProp nv emailKey = some vals ∧
          encodeURIComponent (index0 vals).toStr = .error err))) ∨
    (∃ nv vals enc, e.namedValues = some nv ∧ getProp nv emailKey = some vals ∧
      encodeURIComponent (index0 vals).toStr = .ok enc ∧
      ((∃ err, mailApp (messageOf nv vals enc) = .error err ∧
          sendResultsLink mailApp e = ⟨[messageOf nv vals enc], [errorEntry err], .ok ()⟩) ∨
        (mailApp (messageOf nv vals enc) = .ok () ∧
          sendResultsLink mailApp e =
            ⟨[messageOf nv vals enc], [successEntry (index0 vals)], .ok ()⟩))) := by
  cases h : e.namedValues with
  | none => exact .inl ⟨_, run_no_namedValues mailApp e h, .inl rfl⟩
  | some nv =>
    cases h2 : getProp nv emailKey with
    | none => exact .inl ⟨_, run_no_entry mailApp e nv h h2, .inr (.inl ⟨nv, rfl, h2⟩)⟩
    | some vals =>
      cases h3 : encodeURIComponent (index0 vals).toStr with
      | error err =>
        exact .inl ⟨err, run_encode_error mailApp e nv vals err h h2 h3,
          .inr (.inr ⟨nv, vals, rfl, h2, h3⟩)⟩
      | ok enc =>
        refine .inr ⟨nv, vals, enc, rfl, h2, h3, ?_⟩
        cases h4 : mailApp (messageOf nv vals enc) with
        | error err => exact .inl ⟨err, rfl, run_mail_error mailApp e nv vals enc err h h2 h3 h4⟩
        | ok u => exact .inr ⟨rfl, run_mail_ok mailApp e nv vals enc h h2 h3 h4⟩

theorem errorEntry_prefix (err : JSError) : lit "Error sending email: " <+: errorEntry err :=
  List.prefix_append _ _

theorem errorEntry_not_success (err : JSError) :
    ¬ lit "Successfully sent results link to " <+: errorEntry err := by
  have h1 : lit "Successfully sent results link to " =
      83 :: lit "uccessfully sent results link to " := rfl
  have h2 : errorEntry err = 69 :: (lit "rror sending email: " ++ err.toString) := rfl
  rw [h1, h2, List.cons_prefix_cons]
  rintro ⟨h, _⟩
  exact absurd h (by decide)

theorem successEntry_not_error (email : JSValue) :
    ¬ lit "Error sending email: " <+: successEntry email := by
  have h1 : lit "Error sending email: " = 69 :: lit "rror sending email: " := rfl
  have h2 : successEntry email =
      83 :: (lit "uccessfully sent results link to " ++ email.toStr) := rfl
  rw [h1, h2, List.cons_prefix_cons]
  rintro ⟨h, _⟩
  exact absurd h (by decide)

theorem bodyOf_href (greeting resultsUrl : JSString) :
    bodyOf greeting resultsUrl =
      bodyBeforeHref greeting ++ lit "href=\"" ++ resultsUrl ++ lit "\"" ++ bodyAfterHref := by
  have h1 : lit "</p>\n      <p>Thank you for completing the Strategic Impact Self-Assessment.</p>\n      <p>You can view your personalized dashboard by clicking the link below:</p>\n      <p><a href=\"" =
      lit "</p>\n      <p>Thank you for completing the Strategic Impact Self-Assessment.</p>\n      <p>You can view your personalized dashboard by clicking the link below:</p>\n      <p><a " ++ lit "href=\"" := by
    rfl
  have h2 : lit "\" style=\"font-size: 16px; font-weight: bold; color: #FFFFFF; background-color: #0068C9; text-decoration: none; padding: 10px 20px; border-radius: 5px;\">View My Profile</a></p>\n      <p>This link is personalized for you. Please do not share it.</p>\n    " =
      lit "\"" ++ bodyAfterHref := by
    rfl
  rw [bodyOf, h1, h2, bodyBeforeHref]
  simp only [List.append_assoc]

theorem bodyOf_greeting (greeting resultsUrl : JSString) :
    bodyOf greeting resultsUrl =
      lit "\n      " ++ (lit "<p>" ++ greeting ++ lit "</p>") ++ bodyAfterGreeting resultsUrl := by
  have h1 : lit "\n      <p>" = lit "\n      " ++ lit "<p>" := by rfl
  have h2 : lit "</p>\n      <p>Thank you for completing the Strategic Impact Self-Assessment.</p>\n      <p>You can view your personalized dashboard by clicking the link below:</p>\n      <p><a href=\"" =
      lit "</p>" ++ lit "\n      <p>Thank you for completing the Strategic Impact Self-Assessment.</p>\n      <p>You can view your personalized dashboard by clicking the link below:</p>\n      <p><a href=\"" := by
    rfl
  rw [bodyOf, h1, h2, bodyAfterGreeting]
  simp only [List.append_assoc]

theorem encodedChar_not_special {c : Nat} (h : isEncodedChar c = true) :
    c ≠ 0x2B ∧ c ≠ 0x26 ∧ c ≠ 0x3D ∧ c ≠ 0x23 ∧ c ≠ 0x40 ∧ c ≠ 0x20 ∧
    c ≠ 0x22 ∧ c ≠ 0x3C ∧ c ≠ 0x3E ∧ c ≠ 0x09 ∧ c ≠ 0x0A ∧ c ≠ 0x0D := by
  simp only [isEncodedChar, isUnreserved, Bool.or_eq_true, Bool.and_eq_true,
    decide_eq_true_eq, beq_iff_eq] at h
  omega

theorem resultsUrlOf_no_quote {enc : JSString} (h : ∀ c ∈ enc, isEncodedChar c = true) :
    0x22 ∉ resultsUrlOf enc := by
  have hfix : ∀ c ∈ STREAMLIT_APP_URL ++ lit "/?email=", c ≠ 0x22 := by decide
  intro hmem
  simp only [resultsUrlOf, List.mem_append] at hmem hfix
  rcases hmem with hmem | hmem
  · exact hfix _ hmem rfl
  · exact (encodedChar_not_special (h _ hmem)).2.2.2.2.2.2.1 rfl

theorem stringToCodePoints_plus (post : JSString) :
    stringToCodePoints (0x2B :: post) = 0x2B :: stringToCodePoints post := by
  cases post with
  | nil => rfl
  | cons d rest =>
    rw [stringToCodePoints]
    have : isLeadSurrogate 0x2B = false := rfl
    simp [this]

theorem stringToCodePoints_append_plus (pre post : JSString) :
    stringToCodePoints (pre ++ 0x2B :: post) =
      stringToCodePoints pre ++ 0x2B :: stringToCodePoints post := by
  induction pre using list_induction_two with
  | h0 => exact stringToCodePoints_plus post
  | h1 c =>
    have : isTrailSurrogate 0x2B = false := rfl
    show stringToCodePoints (c :: 0x2B :: post) = [c] ++ 0x2B :: stringToCodePoints post
    rw [stringToCodePoints]
    simp [this, stringToCodePoints_plus]
  | h2 c d rest ih1 ih2 =>
    simp only [List.cons_append] at ih2 ⊢
    rw [stringToCodePoints, stringToCodePoints]
    by_cases hp : (isLeadSurrogate c && isTrailSurrogate d) = true
    · simp only [hp, if_true, ih1, List.cons_append]
    · simp only [Bool.not_eq_true] at hp
      simp only [hp, Bool.false_eq_true, if_false, ih2, List.cons_append]

theorem encodeByCharacter_append_plus (pre post : JSString) :
    encodeByCharacter (pre ++ 0x2B :: post) =
      encodeByCharacter pre ++ lit "%2B" ++ encodeByCharacter post := by
  have h : escapeCodePoint 0x2B = lit "%2B" := rfl
  have hu : isUnreserved 0x2B = false := rfl
  simp only [encodeByCharacter, stringToCodePoints_append_plus, List.map_append, List.map_cons,
    List.flatten_append, List.flatten_cons, hu, h, List.append_assoc]
  rfl

/-! ## The claims -/

/-- C1: for an event whose `Work Email Address` entry has a well-formed first
value `email`, and a mail service that does not fail, the handler calls
`MailApp.sendEmail` exactly once, with `to` the raw email, the fixed subject,
and as body the five paragraphs of the template, written out here, around the
greeting (`Hi name,` for a non-empty name, else `Hi,`) and the results URL
(the application URL, `/?email=` and the encoded email). -/
theorem sendResultsLink_sends_once (mailApp : MailApp) (e : Event)
    (nv : List (JSString × List JSString)) (email : JSString) (more : List JSString)
    (hnv : e.namedValues = some nv)
    (hentry : getProp nv (lit "Work Email Address") = some (email :: more))
    (hwf : isWellFormed email = true)
    (hmail : ∀ m, mailApp m = .ok ()) :
    ∃ encodedEmail greeting, encodeURIComponent email = .ok encodedEmail ∧
      (sendResultsLink mailApp e).sent =
        [{ «to» := .string email,
           subject := lit "Your Strategic Impact Profile is Ready",
           htmlBody :=
             lit "\n      <p>" ++ greeting ++
             lit "</p>\n      <p>Thank you for completing the Strategic Impact Self-Assessment.</p>\n      <p>You can view your personalized dashboard by clicking the link below:</p>\n      <p><a href=\"" ++
             (lit "https://woynhpxcdqkfmf5khvnjvv.streamlit.app" ++ lit "/?email=" ++ encodedEmail) ++
             lit "\" style=\"font-size: 16px; font-weight: bold; color: #FFFFFF; background-color: #0068C9; text-decoration: none; padding: 10px 20px; border-radius: 5px;\">View My Profile</a></p>\n      <p>This link is personalized for you. Please do not share it.</p>\n    " }] ∧
      (∀ name rest, getProp nv (lit "Name") = some (name :: rest) → name ≠ [] →
        greeting = lit "Hi " ++ name ++ lit ",") ∧
      ((getProp nv (lit "Name") = none ∨ getProp nv (lit "Name") = some [] ∨
          ∃ rest, getProp nv (lit "Name") = some ([] :: rest)) →
        greeting = lit "Hi,") := by
  have henc : encodeURIComponent email = .ok (encodeByCharacter email) := by
    rw [encodeURIComponent_eq, hwf]; rfl
  refine ⟨_, greetingOf (nameOf nv), henc, ?_, ?_, ?_⟩
  · rw [run_mail_ok mailApp e nv (email :: more) (encodeByCharacter email) hnv hentry henc
      (hmail _)]
    rfl
  · intro name rest hname hne
    have ht : (JSValue.string name).truthy = true := by
      cases name with
      | nil => exact absurd rfl hne
      | cons a l => rfl
    simp only [nameOf, hname, index0, greetingOf, ht, if_true, JSValue.toStr]
  · rintro (h | h | ⟨rest, h⟩) <;> rw [nameOf, h] <;> rfl

theorem sendResultsLink_sends_once_witness :
    isWellFormed (lit "ann+si@example.com") = true ∧
    (∃ encodedEmail greeting, encodeURIComponent (lit "ann+si@example.com") = .ok encodedEmail ∧
      (sendResultsLink deliveringMail sampleEvent).sent =
        [{ «to» := .string (lit "ann+si@example.com"),
           subject := lit "Your Strategic Impact Profile is Ready",
           htmlBody :=
             lit "\n      <p>" ++ greeting ++
             lit "</p>\n      <p>Thank you for completing the Strategic Impact Self-Assessment.</p>\n      <p>You can view your personalized dashboard by clicking the link below:</p>\n      <p><a href=\"" ++
             (lit "https://woynhpxcdqkfmf5khvnjvv.streamlit.app" ++ lit "/?email=" ++ encodedEmail) ++
             lit "\" style=\"font-size: 16px; font-weight: bold; color: #FFFFFF; background-color: #0068C9; text-decoration: none; padding: 10px 20px; border-radius: 5px;\">View My Profile</a></p>\n      <p>This link is personalized for you. Please do not share it.</p>\n    " }] ∧
      (∀ name rest, getProp sampleValues (lit "Name") = some (name :: rest) → name ≠ [] →
        greeting = lit "Hi " ++ name ++ lit ",") ∧
      ((getProp sampleValues (lit "Name") = none ∨ getProp sampleValues (lit "Name") = some [] ∨
          ∃ rest, getProp sampleValues (lit "Name") = some ([] :: rest)) →
        greeting = lit "Hi,")) :=
  ⟨rfl, sendResultsLink_sends_once deliveringMail sampleEvent sampleValues
    (lit "ann+si@example.com") [] rfl rfl rfl (fun _ => rfl)⟩

/-- C5: for an event without a `Work Email Address` entry, or without
`namedValues`, the handler does not call `MailApp.sendEmail`, writes exactly
one log entry, which begins with `Error sending email: ` and is no success
entry, and returns normally. -/
theorem missing_email_entry_logged (mailApp : MailApp) (e : Event)
    (h : e.namedValues = none ∨
      ∃ nv, e.namedValues = some nv ∧ getProp nv (lit "Work Email Address") = none) :
    (sendResultsLink mailApp e).sent = [] ∧
    (∃ entry, (sendResultsLink mailApp e).log = [entry] ∧
      lit "Error sending email: " <+: entry ∧
      ¬ lit "Successfully sent results link to " <+: entry) ∧
    (sendResultsLink mailApp e).completion = .ok () := by
  rcases h with h | ⟨nv, h, h2⟩
  · rw [run_no_namedValues mailApp e h]
    exact ⟨rfl, ⟨_, rfl, errorEntry_prefix _, errorEntry_not_success _⟩, rfl⟩
  · rw [run_no_entry mailApp e nv h h2]
    exact ⟨rfl, ⟨_, rfl, errorEntry_prefix _, errorEntry_not_success _⟩, rfl⟩

theorem missing_email_entry_logged_witness :
    getProp valuesWithoutEmail (lit "Work Email Address") = none ∧
    (sendResultsLink deliveringMail { namedValues := some valuesWithoutEmail }).sent = [] ∧
    (∃ entry, (sendResultsLink deliveringMail { namedValues := some valuesWithoutEmail }).log =
        [entry] ∧
      lit "Error sending email: " <+: entry ∧
      ¬ lit "Successfully sent results link to " <+: entry) ∧
    (sendResultsLink deliveringMail { namedValues := some valuesWithoutEmail }).completion =
      .ok () :=
  ⟨rfl, missing_email_entry_logged deliveringMail { namedValues := some valuesWithoutEmail }
    (.inr ⟨valuesWithoutEmail, rfl, rfl⟩)⟩

/-- C6: when `MailApp.sendEmail` raises an error, the handler has called it
exactly once, writes exactly one log entry, `Error sending email: ` followed
by the string form of the error, writes no success entry, and returns normally. -/
theorem mail_failure_logged_once (mailApp : MailApp) (e : Event) (msg : MailMessage)
    (err : JSError) (hsent : msg ∈ (sendResultsLink mailApp e).sent)
    (hfail : mailApp msg = .error err) :
    (sendResultsLink mailApp e).sent = [msg] ∧
    (sendResultsLink mailApp e).log = [lit "Error sending email: " ++ err.toString] ∧
    (∀ entry ∈ (sendResultsLink mailApp e).log,
      ¬ lit "Successfully sent results link to " <+: entry) ∧
    (sendResultsLink mailApp e).completion = .ok () := by
  rcases run_cases mailApp e with ⟨err2, hrun, _⟩ | ⟨nv, vals, enc, _, _, _, hcase⟩
  · rw [hrun] at hsent
    cases hsent
  · rcases hcase with ⟨err2, hm, hrun⟩ | ⟨hm, hrun⟩
    · rw [hrun] at hsent ⊢
      simp only [List.mem_singleton] at hsent
      subst hsent
      rw [hm] at hfail
      injection hfail with hfail
      subst hfail
      refine ⟨rfl, rfl, ?_, rfl⟩
      intro entry hentry
      simp only [List.mem_singleton] at hentry
      subst hentry
      exact errorEntry_not_success _
    · rw [hrun] at hsent
      simp only [List.mem_singleton] at hsent
      subst hsent
      rw [hm] at hfail
      cases hfail

theorem mail_failure_logged_once_witness :
    failingMail (messageOf sampleValues [lit "ann+si@example.com"]
      (lit "ann%2Bsi%40example.com")) = .error quotaError ∧
    (sendResultsLink failingMail sampleEvent).sent =
        [messageOf sampleValues [lit "ann+si@example.com"] (lit "ann%2Bsi%40example.com")] ∧
    (sendResultsLink failingMail sampleEvent).log =
      [lit "Error sending email: " ++ quotaError.toString] ∧
    (∀ entry ∈ (sendResultsLink failingMail sampleEvent).log,
      ¬ lit "Successfully sent results link to " <+: entry) ∧
    (sendResultsLink failingMail sampleEvent).completion = .ok () :=
  ⟨rfl, mail_failure_logged_once failingMail sampleEvent
    (messageOf sampleValues [lit "ann+si@example.com"] (lit "ann%2Bsi%40example.com"))
    quotaError (List.mem_singleton.mpr rfl) rfl⟩

/-- C8: every run of the handler writes exactly one log entry: the success
entry when `MailApp.sendEmail` was called and returned, and otherwise an entry
that begins with `Error sending email: `; the entry is never both. -/
theorem exactly_one_log_entry (mailApp : MailApp) (e : Event) :
    ∃ entry, (sendResultsLink mailApp e).log = [entry] ∧
      ((∃ msg, (sendResultsLink mailApp e).sent = [msg] ∧ mailApp msg = .ok () ∧
          entry = lit "Successfully sent results link to " ++ msg.«to».toStr ∧
          ¬ lit "Error sending email: " <+: entry) ∨
       ((∀ msg ∈ (sendResultsLink mailApp e).sent, mailApp msg ≠ .ok ()) ∧
          lit "Error sending email: " <+: entry ∧
          ¬ lit "Successfully sent results link to " <+: entry)) := by
  rcases run_cases mailApp e with ⟨err, hrun, _⟩ | ⟨nv, vals, enc, _, _, _, hcase⟩
  · rw [hrun]
    refine ⟨_, rfl, .inr ⟨?_, errorEntry_prefix _, errorEntry_not_success _⟩⟩
    intro msg hmsg
    cases hmsg
  · rcases hcase with ⟨err, hm, hrun⟩ | ⟨hm, hrun⟩
    · rw [hrun]
      refine ⟨_, rfl, .inr ⟨?_, errorEntry_prefix _, errorEntry_not_success _⟩⟩
      intro msg hmsg
      simp only [List.mem_singleton] at hmsg
      subst hmsg
      rw [hm]
      intro h
      cases h
    · rw [hrun]
      exact ⟨_, rfl, .inl ⟨_, rfl, hm, rfl, successEntry_not_error _⟩⟩

/-- C2: for every message handed to `MailApp.sendEmail`, the results URL is
`STREAMLIT_APP_URL` followed by `/?email=` and the encoded email, and the body
contains `href="` followed by that URL and a closing quote. -/
theorem results_url_in_href (mailApp : MailApp) (e : Event) (msg : MailMessage)
    (hsent : msg ∈ (sendResultsLink mailApp e).sent) :
    ∃ encodedEmail, encodeURIComponent msg.«to».toStr = .ok encodedEmail ∧
      resultsUrlOf encodedEmail =
        lit "https://woynhpxcdqkfmf5khvnjvv.streamlit.app" ++ lit "/?email=" ++ encodedEmail ∧
      (∃ greeting, msg.htmlBody = bodyOf greeting (resultsUrlOf encodedEmail)) ∧
      (lit "href=\"" ++ resultsUrlOf encodedEmail ++ lit "\"") <:+: msg.htmlBody := by
  have key : ∀ nv vals enc, encodeURIComponent (index0 vals).toStr = .ok enc →
      msg = messageOf nv vals enc →
      ∃ encodedEmail, encodeURIComponent msg.«to».toStr = .ok encodedEmail ∧
        resultsUrlOf encodedEmail =
          lit "https://woynhpxcdqkfmf5khvnjvv.streamlit.app" ++ lit "/?email=" ++ encodedEmail ∧
        (∃ greeting, msg.htmlBody = bodyOf greeting (resultsUrlOf encodedEmail)) ∧
        (lit "href=\"" ++ resultsUrlOf encodedEmail ++ lit "\"") <:+: msg.htmlBody := by
    intro nv vals enc henc hmsg
    subst hmsg
    refine ⟨enc, henc, rfl, ⟨_, rfl⟩, ?_⟩
    refine ⟨bodyBeforeHref (greetingOf (nameOf nv)), bodyAfterHref, ?_⟩
    simp only [messageOf, bodyOf_href, List.append_assoc]
  rcases run_cases mailApp e with ⟨err, hrun, _⟩ | ⟨nv, vals, enc, _, _, henc, hcase⟩
  · rw [hrun] at hsent
    cases hsent
  · rcases hcase with ⟨err, _, hrun⟩ | ⟨_, hrun⟩ <;>
    · rw [hrun] at hsent
      exact key nv vals enc henc (List.mem_singleton.mp hsent)

theorem results_url_in_href_witness :
    ∃ encodedEmail,
      encodeURIComponent
        (messageOf sampleValues [lit "ann+si@example.com"]
          (lit "ann%2Bsi%40example.com")).«to».toStr = .ok encodedEmail ∧
      resultsUrlOf encodedEmail =
        lit "https://woynhpxcdqkfmf5khvnjvv.streamlit.app" ++ lit "/?email=" ++ encodedEmail ∧
      (∃ greeting, (messageOf sampleValues [lit "ann+si@example.com"]
          (lit "ann%2Bsi%40example.com")).htmlBody = bodyOf greeting (resultsUrlOf encodedEmail)) ∧
      (lit "href=\"" ++ resultsUrlOf encodedEmail ++ lit "\"") <:+:
        (messageOf sampleValues [lit "ann+si@example.com"]
          (lit "ann%2Bsi%40example.com")).htmlBody :=
  results_url_in_href deliveringMail sampleEvent
    (messageOf sampleValues [lit "ann+si@example.com"] (lit "ann%2Bsi%40example.com"))
    (List.mem_singleton.mpr rfl)

/-- C3: on every well-formed email, `encodeURIComponent` replaces each
character outside the unreserved set by the `%XX` escapes of its UTF-8 octets
and keeps each unreserved character; each `+` becomes `%2B`; the encoded
email contains no `+`, `&`, `=`, `#`, `@` or space. -/
theorem encodedEmail_escapes (email : JSString) (hwf : isWellFormed email = true) :
    encodeURIComponent email = .ok (encodeByCharacter email) ∧
    (∀ pre post, email = pre ++ 0x2B :: post →
      encodeByCharacter email = encodeByCharacter pre ++ lit "%2B" ++ encodeByCharacter post) ∧
    (∀ c ∈ encodeByCharacter email,
      c ≠ 0x2B ∧ c ≠ 0x26 ∧ c ≠ 0x3D ∧ c ≠ 0x23 ∧ c ≠ 0x40 ∧ c ≠ 0x20) := by
  refine ⟨by rw [encodeURIComponent_eq, hwf]; rfl, ?_, ?_⟩
  · rintro pre post rfl
    exact encodeByCharacter_append_plus pre post
  · intro c hc
    have h := encodedChar_not_special (encodeByCharacter_chars email c hc)
    exact ⟨h.1, h.2.1, h.2.2.1, h.2.2.2.1, h.2.2.2.2.1, h.2.2.2.2.2.1⟩

theorem encodedEmail_escapes_witness :
    isWellFormed (lit "ann+si@example.com") = true ∧
    encodeURIComponent (lit "ann+si@example.com") =
      .ok (encodeByCharacter (lit "ann+si@example.com")) ∧
    (∀ pre post, lit "ann+si@example.com" = pre ++ 0x2B :: post →
      encodeByCharacter (lit "ann+si@example.com") =
        encodeByCharacter pre ++ lit "%2B" ++ encodeByCharacter post) ∧
    (∀ c ∈ encodeByCharacter (lit "ann+si@example.com"),
      c ≠ 0x2B ∧ c ≠ 0x26 ∧ c ≠ 0x3D ∧ c ≠ 0x23 ∧ c ≠ 0x40 ∧ c ≠ 0x20) :=
  ⟨rfl, encodedEmail_escapes (lit "ann+si@example.com") rfl⟩

/-- C4: the name only personalizes the greeting.  When the event has an email
entry whose first value can be encoded, the handler calls `MailApp.sendEmail`
once; the first paragraph of the body is `<p>Hi name,</p>` with the name
verbatim when the `Name` entry has a non-empty first value, and `<p>Hi,</p>`
when the entry is absent, has no value, or has the empty string as first
value; recipient, subject and results URL are those of the email alone. -/
theorem name_only_personalizes_greeting (mailApp : MailApp) (e : Event)
    (nv : List (JSString × List JSString)) (vals : List JSString) (encodedEmail : JSString)
    (hnv : e.namedValues = some nv)
    (hentry : getProp nv (lit "Work Email Address") = some vals)
    (henc : encodeURIComponent (index0 vals).toStr = .ok encodedEmail) :
    ∃ paragraph,
      (sendResultsLink mailApp e).sent =
        [{ «to» := index0 vals,
           subject := lit "Your Strategic Impact Profile is Ready",
           htmlBody := lit "\n      " ++ paragraph ++
             bodyAfterGreeting
               (lit "https://woynhpxcdqkfmf5khvnjvv.streamlit.app" ++ lit "/?email=" ++
                 encodedEmail) }] ∧
      (∀ name more, getProp nv (lit "Name") = some (name :: more) → name ≠ [] →
        paragraph = lit "<p>Hi " ++ name ++ lit ",</p>") ∧
      ((getProp nv (lit "Name") = none ∨ getProp nv (lit "Name") = some [] ∨
          ∃ more, getProp nv (lit "Name") = some ([] :: more)) →
        paragraph = lit "<p>Hi,</p>") := by
  refine ⟨lit "<p>" ++ greetingOf (nameOf nv) ++ lit "</p>", ?_, ?_, ?_⟩
  · have hsent : (sendResultsLink mailApp e).sent = [messageOf nv vals encodedEmail] := by
      cases hm : mailApp (messageOf nv vals encodedEmail) with
      | error err => rw [run_mail_error mailApp e nv vals encodedEmail err hnv hentry henc hm]
      | ok u => rw [run_mail_ok mailApp e nv vals encodedEmail hnv hentry henc hm]
    rw [hsent, messageOf, bodyOf_greeting]
    rfl
  · intro name more hname hne
    have ht : (JSValue.string name).truthy = true := by
      cases name with
      | nil => exact absurd rfl hne
      | cons a l => rfl
    have h1 : lit "<p>Hi " = lit "<p>" ++ lit "Hi " := by rfl
    have h2 : lit ",</p>" = lit "," ++ lit "</p>" := by rfl
    simp only [nameOf, hname, index0, greetingOf, ht, if_true, JSValue.toStr, h1, h2,
      List.append_assoc]
  · have h1 : lit "<p>Hi,</p>" = lit "<p>" ++ lit "Hi," ++ lit "</p>" := by rfl
    rintro (h | h | ⟨more, h⟩) <;> rw [h1, nameOf, h] <;> rfl

theorem name_only_personalizes_greeting_witness :
    ∃ paragraph,
      (sendResultsLink deliveringMail sampleEvent).sent =
        [{ «to» := index0 [lit "ann+si@example.com"],
           subject := lit "Your Strategic Impact Profile is Ready",
           htmlBody := lit "\n      " ++ paragraph ++
             bodyAfterGreeting
               (lit "https://woynhpxcdqkfmf5khvnjvv.streamlit.app" ++ lit "/?email=" ++
                 lit "ann%2Bsi%40example.com") }] ∧
      (∀ name more, getProp sampleValues (lit "Name") = some (name :: more) → name ≠ [] →
        paragraph = lit "<p>Hi " ++ name ++ lit ",</p>") ∧
      ((getProp sampleValues (lit "Name") = none ∨ getProp sampleValues (lit "Name") = some [] ∨
          ∃ more, getProp sampleValues (lit "Name") = some ([] :: more)) →
        paragraph = lit "<p>Hi,</p>") :=
  name_only_personalizes_greeting deliveringMail sampleEvent sampleValues
    [lit "ann+si@example.com"] (lit "ann%2Bsi%40example.com") rfl rfl rfl

/-- C7, as the claim states it, fails: for an event whose `Work Email Address`
entry has an empty list of values the handler does call `MailApp.sendEmail`,
with `to` undefined and a results URL whose query value is `undefined`; it is
the mail service that rejects the message, and the handler logs that error. -/
theorem empty_email_list_is_sent :
    (sendResultsLink strictMail emptyEmailEvent).sent =
      [{ «to» := .undefined,
         subject := lit "Your Strategic Impact Profile is Ready",
         htmlBody :=
           lit "\n      <p>" ++ lit "Hi," ++
           lit "</p>\n      <p>Thank you for completing the Strategic Impact Self-Assessment.</p>\n      <p>You can view your personalized dashboard by clicking the link below:</p>\n      <p><a href=\"" ++
           lit "https://woynhpxcdqkfmf5khvnjvv.streamlit.app/?email=undefined" ++
           lit "\" style=\"font-size: 16px; font-weight: bold; color: #FFFFFF; background-color: #0068C9; text-decoration: none; padding: 10px 20px; border-radius: 5px;\">View My Profile</a></p>\n      <p>This link is personalized for you. Please do not share it.</p>\n    " }] ∧
    (sendResultsLink strictMail emptyEmailEvent).log =
      [lit "Error sending email: Exception: Failed to send email: no recipient"] ∧
    (sendResultsLink deliveringMail emptyEmailEvent).log =
      [lit "Successfully sent results link to undefined"] :=
  ⟨rfl, rfl, rfl⟩

/-- C7, amended: `MailApp.sendEmail` is called only for an event that has a
`Work Email Address` entry, and its `to` argument is the first element of the
values of that entry: a string when the list has a value, `undefined` when
the list is empty.  On an empty list the send is attempted all the same, with
`to` undefined and a results URL whose query value is `undefined`; on a list
whose first value can be encoded the send is attempted with that value. -/
theorem send_only_with_email_entry (mailApp : MailApp) (e : Event) :
    (∀ msg ∈ (sendResultsLink mailApp e).sent,
      ∃ nv vals, e.namedValues = some nv ∧
        getProp nv (lit "Work Email Address") = some vals ∧
        (∀ email more, vals = email :: more → msg.«to» = .string email) ∧
        (vals = [] → msg.«to» = .undefined)) ∧
    (∀ nv, e.namedValues = some nv →
      getProp nv (lit "Work Email Address") = some [] →
      ∃ greeting, (sendResultsLink mailApp e).sent =
        [{ «to» := .undefined,
           subject := lit "Your Strategic Impact Profile is Ready",
           htmlBody :=
             lit "\n      <p>" ++ greeting ++
             lit "</p>\n      <p>Thank you for completing the Strategic Impact Self-Assessment.</p>\n      <p>You can view your personalized dashboard by clicking the link below:</p>\n      <p><a href=\"" ++
             (lit "https://woynhpxcdqkfmf5khvnjvv.streamlit.app/?email=undefined") ++
             lit "\" style=\"font-size: 16px; font-weight: bold; color: #FFFFFF; background-color: #0068C9; text-decoration: none; padding: 10px 20px; border-radius: 5px;\">View My Profile</a></p>\n      <p>This link is personalized for you. Please do not share it.</p>\n    " }]) ∧
    (∀ nv email more encodedEmail, e.namedValues = some nv →
      getProp nv (lit "Work Email Address") = some (email :: more) →
      encodeURIComponent email = .ok encodedEmail →
      ∃ msg, (sendResultsLink mailApp e).sent = [msg] ∧ msg.«to» = .string email) := by
  refine ⟨?_, ?_, ?_⟩
  · intro msg hsent
    have key : ∀ nv vals enc, msg = messageOf nv vals enc →
        (∀ email more, vals = email :: more → msg.«to» = .string email) ∧
        (vals = [] → msg.«to» = .undefined) := by
      intro nv vals enc hmsg
      subst hmsg
      constructor
      · rintro email more rfl
        rfl
      · rintro rfl
        rfl
    rcases run_cases mailApp e with ⟨err, hrun, _⟩ | ⟨nv, vals, enc, hnv, hentry, henc, hcase⟩
    · rw [hrun] at hsent
      cases hsent
    · refine ⟨nv, vals, hnv, hentry, ?_⟩
      rcases hcase with ⟨err, _, hrun⟩ | ⟨_, hrun⟩ <;>
      · rw [hrun] at hsent
        exact key nv vals enc (List.mem_singleton.mp hsent)
  · intro nv hnv hentry
    have henc : encodeURIComponent (index0 []).toStr = .ok (lit "undefined") := rfl
    refine ⟨greetingOf (nameOf nv), ?_⟩
    cases hm : mailApp (messageOf nv [] (lit "undefined")) with
    | error err =>
      rw [run_mail_error mailApp e nv [] (lit "undefined") err hnv hentry henc hm]
      rfl
    | ok u =>
      rw [run_mail_ok mailApp e nv [] (lit "undefined") hnv hentry henc hm]
      rfl
  · intro nv email more enc hnv hentry henc
    refine ⟨messageOf nv (email :: more) enc, ?_, rfl⟩
    cases hm : mailApp (messageOf nv (email :: more) enc) with
    | error err => rw [run_mail_error mailApp e nv (email :: more) enc err hnv hentry henc hm]
    | ok u => rw [run_mail_ok mailApp e nv (email :: more) enc hnv hentry henc hm]

theorem send_only_with_email_entry_witness :
    (∃ nv vals, emptyEmailEvent.namedValues = some nv ∧
      getProp nv (lit "Work Email Address") = some vals ∧
      (∀ email more, vals = email :: more →
        (messageOf [(lit "Work Email Address", [])] [] (lit "undefined")).«to» =
          .string email) ∧
      (vals = [] →
        (messageOf [(lit "Work Email Address", [])] [] (lit "undefined")).«to» =
          .undefined)) ∧
    (∃ greeting, (sendResultsLink strictMail emptyEmailEvent).sent =
      [{ «to» := .undefined,
         subject := lit "Your Strategic Impact Profile is Ready",
         htmlBody :=
           lit "\n      <p>" ++ greeting ++
           lit "</p>\n      <p>Thank you for completing the Strategic Impact Self-Assessment.</p>\n      <p>You can view your personalized dashboard by clicking the link below:</p>\n      <p><a href=\"" ++
           (lit "https://woynhpxcdqkfmf5khvnjvv.streamlit.app/?email=undefined") ++
           lit "\" style=\"font-size: 16px; font-weight: bold; color: #FFFFFF; background-color: #0068C9; text-decoration: none; padding: 10px 20px; border-radius: 5px;\">View My Profile</a></p>\n      <p>This link is personalized for you. Please do not share it.</p>\n    " }]) ∧
    (∃ msg, (sendResultsLink failingMail sampleEvent).sent = [msg] ∧
      msg.«to» = .string (lit "ann+si@example.com")) :=
  ⟨(send_only_with_email_entry strictMail emptyEmailEvent).1
      (messageOf [(lit "Work Email Address", [])] [] (lit "undefined"))
      (List.mem_singleton.mpr rfl),
   (send_only_with_email_entry strictMail emptyEmailEvent).2.1
      [(lit "Work Email Address", [])] rfl rfl,
   (send_only_with_email_entry failingMail sampleEvent).2.2 sampleValues
      (lit "ann+si@example.com") [] (lit "ann%2Bsi%40example.com") rfl rfl rfl⟩

/-- C9: the link identifies the submitter without loss.  For a well-formed
email, decoding the encoded email gives the email back; two different emails
never give the same results URL; and for an email with an unpaired surrogate
the encoding fails, no mail is sent and the failure is logged. -/
theorem results_link_identifies_submitter :
    (∀ email, IsCodeUnits email → isWellFormed email = true →
      ∃ encodedEmail, encodeURIComponent email = .ok encodedEmail ∧
        decodeURIComponent encodedEmail = some (.ok email)) ∧
    (∀ email1 email2 enc1 enc2, IsCodeUnits email1 → IsCodeUnits email2 →
      encodeURIComponent email1 = .ok enc1 → encodeURIComponent email2 = .ok enc2 →
      email1 ≠ email2 → resultsUrlOf enc1 ≠ resultsUrlOf enc2) ∧
    (∀ (mailApp : MailApp) (e : Event) nv email more, e.namedValues = some nv →
      getProp nv (lit "Work Email Address") = some (email :: more) →
      isWellFormed email = false →
      encodeURIComponent email = .error uriError ∧
      (sendResultsLink mailApp e).sent = [] ∧
      (sendResultsLink mailApp e).log = [lit "Error sending email: " ++ uriError.toString] ∧
      (sendResultsLink mailApp e).completion = .ok ()) := by
  refine ⟨?_, ?_, ?_⟩
  · intro email hcu hwf
    have henc : encodeURIComponent email = .ok (encodeByCharacter email) := by
      rw [encodeURIComponent_eq, hwf]; rfl
    exact ⟨_, henc, decodeURIComponent_encodeURIComponent hcu henc⟩
  · intro email1 email2 enc1 enc2 h1 h2 he1 he2 hne hurl
    have henc : enc1 = enc2 := List.append_cancel_left hurl
    subst henc
    have d1 := decodeURIComponent_encodeURIComponent h1 he1
    have d2 := decodeURIComponent_encodeURIComponent h2 he2
    rw [d1] at d2
    injection d2 with d2
    injection d2 with d2
    exact hne d2
  · intro mailApp e nv email more hnv hentry hwf
    have henc : encodeURIComponent email = .error uriError := by
      rw [encodeURIComponent_eq, hwf]; rfl
    rw [run_encode_error mailApp e nv (email :: more) uriError hnv hentry henc]
    exact ⟨henc, rfl, rfl, rfl⟩

theorem results_link_identifies_submitter_witness :
    (∃ encodedEmail, encodeURIComponent (lit "ann+si@example.com") = .ok encodedEmail ∧
        decodeURIComponent encodedEmail = some (.ok (lit "ann+si@example.com"))) ∧
    resultsUrlOf (lit "ann%2Bsi%40example.com") ≠ resultsUrlOf (lit "ann%20si%40example.com") ∧
    (encodeURIComponent (0xD83D :: lit "@example.com") = .error uriError ∧
      (sendResultsLink deliveringMail surrogateEvent).sent = [] ∧
      (sendResultsLink deliveringMail surrogateEvent).log =
        [lit "Error sending email: " ++ uriError.toString] ∧
      (sendResultsLink deliveringMail surrogateEvent).completion = .ok ()) :=
  ⟨results_link_identifies_submitter.1 (lit "ann+si@example.com") (by decide) rfl,
   results_link_identifies_submitter.2.1 (lit "ann+si@example.com") (lit "ann si@example.com")
     (lit "ann%2Bsi%40example.com") (lit "ann%20si%40example.com")
     (by decide) (by decide) rfl rfl (by decide),
   results_link_identifies_submitter.2.2 deliveringMail surrogateEvent
     [(lit "Work Email Address", [0xD83D :: lit "@example.com"])]
     (0xD83D :: lit "@example.com") [] rfl rfl rfl⟩

/-- C10: the submitted email cannot break out of the `href` attribute.  An
email that is encoded successfully gives an encoded email made only of the
characters `A-Z a-z 0-9 - _ . ! ~ * ' ( )` and `%`, so without double quote,
`<`, `>`, `&` or whitespace; and in the body sent for it the `href="` of the
link is followed by the results URL, which holds no double quote, and then by
the closing quote. -/
theorem email_cannot_break_href (email encodedEmail : JSString)
    (henc : encodeURIComponent email = .ok encodedEmail) :
    (∀ c ∈ encodedEmail, isEncodedChar c = true ∧
      c ≠ 0x22 ∧ c ≠ 0x3C ∧ c ≠ 0x3E ∧ c ≠ 0x26 ∧ c ≠ 0x20 ∧ c ≠ 0x09 ∧ c ≠ 0x0A ∧ c ≠ 0x0D) ∧
    0x22 ∉ resultsUrlOf encodedEmail ∧
    (∀ (mailApp : MailApp) (e : Event) nv more, e.namedValues = some nv →
      getProp nv (lit "Work Email Address") = some (email :: more) →
      ∃ msg, (sendResultsLink mailApp e).sent = [msg] ∧
        msg.htmlBody = bodyBeforeHref (greetingOf (nameOf nv)) ++ lit "href=\"" ++
          resultsUrlOf encodedEmail ++ lit "\"" ++ bodyAfterHref) := by
  have hchars := encodeURIComponent_chars henc
  refine ⟨?_, resultsUrlOf_no_quote hchars, ?_⟩
  · intro c hc
    have h := encodedChar_not_special (hchars c hc)
    exact ⟨hchars c hc, h.2.2.2.2.2.2.1, h.2.2.2.2.2.2.2.1, h.2.2.2.2.2.2.2.2.1, h.2.1,
      h.2.2.2.2.2.1, h.2.2.2.2.2.2.2.2.2.1, h.2.2.2.2.2.2.2.2.2.2.1, h.2.2.2.2.2.2.2.2.2.2.2⟩
  · intro mailApp e nv more hnv hentry
    refine ⟨messageOf nv (email :: more) encodedEmail, ?_, ?_⟩
    · cases hm : mailApp (messageOf nv (email :: more) encodedEmail) with
      | error err =>
        rw [run_mail_error mailApp e nv (email :: more) encodedEmail err hnv hentry henc hm]
      | ok u => rw [run_mail_ok mailApp e nv (email :: more) encodedEmail hnv hentry henc hm]
    · rw [messageOf, bodyOf_href]

theorem email_cannot_break_href_witness :
    (∀ c ∈ lit "%22%3E%3Cscript%3E%40example.com", isEncodedChar c = true ∧
      c ≠ 0x22 ∧ c ≠ 0x3C ∧ c ≠ 0x3E ∧ c ≠ 0x26 ∧ c ≠ 0x20 ∧ c ≠ 0x09 ∧ c ≠ 0x0A ∧ c ≠ 0x0D) ∧
    0x22 ∉ resultsUrlOf (lit "%22%3E%3Cscript%3E%40example.com") ∧
    (∀ (mailApp : MailApp) (e : Event) nv more, e.namedValues = some nv →
      getProp nv (lit "Work Email Address") = some (lit "\"><script>@example.com" :: more) →
      ∃ msg, (sendResultsLink mailApp e).sent = [msg] ∧
        msg.htmlBody = bodyBeforeHref (greetingOf (nameOf nv)) ++ lit "href=\"" ++
          resultsUrlOf (lit "%22%3E%3Cscript%3E%40example.com") ++ lit "\"" ++ bodyAfterHref) :=
  email_cannot_break_href (lit "\"><script>@example.com")
    (lit "%22%3E%3Cscript%3E%40example.com") rfl

end SiReport
